import Mathlib

/-!
# Verification of pickup-scanner's scan-record core

A shallow embedding of the pickup-scanner web app's logical core:
the tracking normalizer (`src/lib/normalize.ts`), the Dexie-backed
record store (`src/db/dexie.ts`), the cloud-only store variant and its
Netlify function handler, the import/export adapter
(`src/lib/import.ts`, `src/lib/export.ts`), the scan-ingestion mutation
and bulk verify (`src/pages/Scan.tsx`), and the capture-engine
stop/detect interleaving.

JavaScript strings are modelled as lists of Unicode code points
(`JStr := List Nat`); JS numbers holding epoch-millisecond timestamps
are modelled as `Int`.
-/

namespace PickupScanner

/-- A JavaScript string, as its list of code points. -/
abbrev JStr := List Nat

/-- Code points of a Lean string literal, for concrete examples. -/
def codes (s : String) : JStr := s.data.map Char.toNat

/-- Membership of a code point in the JS regex `\s` class
(ECMAScript WhiteSpace ∪ LineTerminator). -/
def jsWhitespace (c : Nat) : Bool :=
  c ∈ [9, 10, 11, 12, 13, 32, 160, 5760,
       8192, 8193, 8194, 8195, 8196, 8197, 8198, 8199, 8200, 8201, 8202,
       8232, 8233, 8239, 8287, 12288, 65279]

/-- The character class `[\s-]` used by `normalizeTracking`'s
`replace(/[\s-]/g, '')`. -/
def isSpaceOrDash (c : Nat) : Bool := jsWhitespace c || c == 45

/-- `String.prototype.toUpperCase` on one code point (ASCII case map:
`a`-`z` ↦ `A`-`Z`, everything else fixed). -/
def jsToUpper (c : Nat) : Nat := if 97 ≤ c ∧ c ≤ 122 then c - 32 else c

/-- `String.prototype.toLowerCase` on one code point (ASCII case map). -/
def jsToLower (c : Nat) : Nat := if 65 ≤ c ∧ c ≤ 90 then c + 32 else c

/-- `normalizeTracking` from `src/lib/normalize.ts`:
`tracking.replace(/[\s-]/g, '').toUpperCase()`. -/
def normalizeTracking (s : JStr) : JStr :=
  (s.filter (fun c => !isSpaceOrDash c)).map jsToUpper

/-- `s.toLowerCase()` on a whole string. -/
def lowerStr (s : JStr) : JStr := s.map jsToLower

/-- `String.prototype.includes`: substring containment. -/
def jsIncludes (s sub : JStr) : Bool :=
  s.tails.any (fun t => sub.isPrefixOf t)

/-- `String.prototype.trim`: strip JS whitespace from both ends. -/
def jsTrim (s : JStr) : JStr :=
  ((s.dropWhile jsWhitespace).reverse.dropWhile jsWhitespace).reverse

/-- Uppercasing is idempotent on one code point. -/
theorem jsToUpper_idem (c : Nat) : jsToUpper (jsToUpper c) = jsToUpper c := by
  by_cases h : 97 ≤ c ∧ c ≤ 122
  · have h1 : jsToUpper c = c - 32 := by simp [jsToUpper, h]
    have h2 : ¬(97 ≤ c - 32 ∧ c - 32 ≤ 122) := by omega
    rw [h1]
    rw [jsToUpper, if_neg h2]
  · simp [jsToUpper, h]

/-- Uppercasing never produces a whitespace or dash code point from a
non-whitespace, non-dash one. -/
theorem isSpaceOrDash_jsToUpper (c : Nat) (h : isSpaceOrDash c = false) :
    isSpaceOrDash (jsToUpper c) = false := by
  by_cases hc : 97 ≤ c ∧ c ≤ 122
  · have h1 : jsToUpper c = c - 32 := by simp [jsToUpper, hc]
    rw [h1]
    simp only [isSpaceOrDash, jsWhitespace, Bool.or_eq_false_iff,
      decide_eq_false_iff_not, List.mem_cons, List.not_mem_nil, or_false,
      beq_eq_false_iff_ne, ne_eq]
    push_neg
    omega
  · simp only [jsToUpper, if_neg hc]
    exact h

/-- **C8.** `normalize` is idempotent: for every string `s`,
`normalize(normalize(s)) == normalize(s)` (strip whitespace/dashes,
upper-case; `normalizeTracking` in `src/lib/normalize.ts`). -/
theorem normalizeTracking_idem (s : JStr) :
    normalizeTracking (normalizeTracking s) = normalizeTracking s := by
  unfold normalizeTracking
  induction s with
  | nil => rfl
  | cons c cs ih =>
      by_cases hc : isSpaceOrDash c = true
      · simp [hc, ih]
      · have hc' : isSpaceOrDash c = false := by
          simpa using hc
        simp only [List.filter_cons, hc', Bool.not_false, List.map_cons,
          isSpaceOrDash_jsToUpper c hc', if_true, jsToUpper_idem]
        simpa using ih

/-! ## Data model and record stores -/

/-- A Scan record without its store-assigned id (`Omit<Scan, 'id'>`). -/
structure ScanData where
  tracking : JStr
  timestamp : Int
  deviceName : JStr
  checked : Bool
deriving DecidableEq, Repr

/-- A Scan record in the local Dexie store (`src/db/dexie.ts`), with its
auto-incremented primary key. -/
structure Scan where
  id : Nat
  tracking : JStr
  timestamp : Int
  deviceName : JStr
  checked : Bool
deriving DecidableEq, Repr

/-- The local Dexie database: the `scans` table in primary-key
(insertion) order, plus the next auto-increment key. -/
structure DB where
  nextId : Nat
  scans : List Scan
deriving DecidableEq, Repr

def emptyDB : DB := ⟨1, []⟩

/-- `scanOperations.addScan`: `db.scans.add(scan)` assigns the next
auto-increment id and returns it. -/
def addScan (db : DB) (d : ScanData) : DB × Nat :=
  (⟨db.nextId + 1,
    db.scans ++ [⟨db.nextId, d.tracking, d.timestamp, d.deviceName, d.checked⟩]⟩,
   db.nextId)

/-- Insertion step of sorting by an `Int` key, descending. -/
def insertDescBy (key : α → Int) (s : α) : List α → List α
  | [] => [s]
  | t :: ts => if key t < key s then s :: t :: ts else t :: insertDescBy key s ts

/-- Sort a list by an `Int` key, descending (embeds both Dexie's
`orderBy('timestamp').reverse()` and the JS
`sort((a, b) => b.timestamp - a.timestamp)`). -/
def sortDescBy (key : α → Int) (l : List α) : List α := l.foldr (insertDescBy key) []

/-- The list is ordered by descending key. -/
def sortedDescBy (key : α → Int) (l : List α) : Prop :=
  l.Pairwise (fun a b => key b ≤ key a)

/-- `scanOperations.getAllScans` (Dexie variant):
`db.scans.orderBy('timestamp').reverse().toArray()`. -/
def getAllScans (db : DB) : List Scan := sortDescBy (·.timestamp) db.scans

/-- Does a scan match the search filter
`scan.tracking.includes(normalizedTerm)`? -/
def searchMatch (term : JStr) (s : Scan) : Bool :=
  jsIncludes s.tracking (normalizeTracking term)

/-- `scanOperations.searchScans` (Dexie variant):
`db.scans.filter(scan => scan.tracking.includes(normalizedTerm))
.reverse().limit(limit)` — an unindexed collection traversed in
primary-key order, then reversed, so results come in *descending
primary-key* order. -/
def searchScans (db : DB) (term : JStr) (limit : Nat) : List Scan :=
  ((db.scans.reverse).filter (searchMatch term)).take limit

/-- The duplicate filter of `checkDuplicateToday`: equal tracking and
`startOfDay <= timestamp <= startOfDay + 24*60*60*1000 - 1`. -/
def dupPred (tracking : JStr) (dayStart : Int) (s : Scan) : Bool :=
  s.tracking == tracking &&
    decide (dayStart ≤ s.timestamp) && decide (s.timestamp ≤ dayStart + 86399999)

/-- `scanOperations.checkDuplicateToday` (Dexie variant), with the
clock-derived start of the current local calendar day passed in. -/
def checkDuplicateToday (db : DB) (tracking : JStr) (dayStart : Int) : Option Scan :=
  db.scans.find? (dupPred tracking dayStart)

/-- `scanOperations.getScanByTracking` (Dexie variant):
first exact match. -/
def getScanByTracking (db : DB) (tracking : JStr) : Option Scan :=
  db.scans.find? (fun s => s.tracking == tracking)

/-- `scanOperations.importScans` (Dexie variant): per candidate row,
skip when `checkDuplicateToday` finds a same-code scan of the current
day, otherwise `addScan`; returns (db, imported, skipped). -/
def importScans (dayStart : Int) : DB → List ScanData → DB × Nat × Nat
  | db, [] => (db, 0, 0)
  | db, d :: ds =>
      match checkDuplicateToday db d.tracking dayStart with
      | some _ =>
          let r := importScans dayStart db ds
          (r.1, r.2.1, r.2.2 + 1)
      | none =>
          let r := importScans dayStart (addScan db d).1 ds
          (r.1, r.2.1 + 1, r.2.2)

/-- Result of the `addScanMutation` in `src/pages/Scan.tsx`: either the
`DUPLICATE` error carrying the normalized code, or the updated store
and assigned id. -/
inductive IngestResult
  | duplicate (tracking : JStr)
  | ok (db : DB) (id : Nat)
deriving DecidableEq, Repr

/-- Scan Ingestion (`addScanMutation.mutationFn`): normalize, check for
a same-day duplicate, else insert `{tracking: normalized,
timestamp: Date.now(), deviceName, checked: false}`. -/
def ingest (db : DB) (raw : JStr) (now dayStart : Int) (deviceName : JStr) :
    IngestResult :=
  match checkDuplicateToday db (normalizeTracking raw) dayStart with
  | some _ => .duplicate (normalizeTracking raw)
  | none =>
      .ok (addScan db ⟨normalizeTracking raw, now, deviceName, false⟩).1 db.nextId

/-! ## Cloud-only store variant and Netlify function handler -/

/-- A scan blob held by the Netlify function's key-value store; the
server-assigned id is a string. -/
structure RemoteScan where
  id : JStr
  tracking : JStr
  timestamp : Int
  deviceName : JStr
  checked : Bool
deriving DecidableEq, Repr

/-- The Netlify function's `GET`: read every blob and sort newest
first (`allScans.sort((a, b) => b.timestamp - a.timestamp)`). -/
def remoteGet (store : List RemoteScan) : List RemoteScan :=
  sortDescBy (·.timestamp) store

/-- The Netlify function's `DELETE`: delete each listed id, then
respond `{ success: true, deleted: ids.length }`. Returns the new
store and the reported `deleted` count. -/
def remoteDelete (store : List RemoteScan) (ids : List JStr) :
    List RemoteScan × Nat :=
  (ids.foldl (fun st i => st.filter (fun s => !(s.id == i))) store, ids.length)

/-- Cloud-only `scanOperations.searchScans`: fetch (server-sorted),
filter by substring, `slice(0, limit)`. -/
def cloudSearchScans (store : List RemoteScan) (term : JStr) (limit : Nat) :
    List RemoteScan :=
  ((remoteGet store).filter
    (fun s => jsIncludes s.tracking (normalizeTracking term))).take limit

/-- Cloud-only `scanOperations.getScanByTracking`:
`allScans.find(scan => scan.tracking === tracking)` over the fetched
(server-sorted) sequence. -/
def cloudGetScanByTracking (store : List RemoteScan) (tracking : JStr) :
    Option RemoteScan :=
  (remoteGet store).find? (fun s => s.tracking == tracking)

/-! ## Sorting lemmas -/

theorem insertDescBy_perm (key : α → Int) (s : α) (l : List α) :
    List.Perm (insertDescBy key s l) (s :: l) := by
  induction l with
  | nil => exact List.Perm.refl _
  | cons t ts ih =>
      unfold insertDescBy
      split
      · exact List.Perm.refl _
      · exact (List.Perm.cons t ih).trans (List.Perm.swap s t ts)

theorem insertDescBy_sorted (key : α → Int) (s : α) (l : List α)
    (h : sortedDescBy key l) : sortedDescBy key (insertDescBy key s l) := by
  induction l with
  | nil =>
      unfold insertDescBy sortedDescBy
      simp
  | cons t ts ih =>
      rw [sortedDescBy, List.pairwise_cons] at h
      obtain ⟨ht, hts⟩ := h
      unfold insertDescBy
      split
      · rename_i hlt
        rw [sortedDescBy, List.pairwise_cons]
        refine ⟨?_, ?_⟩
        · intro b hb
          rcases List.mem_cons.mp hb with rfl | hmem
          · exact le_of_lt hlt
          · exact (ht b hmem).trans (le_of_lt hlt)
        · rw [List.pairwise_cons]
          exact ⟨ht, hts⟩
      · rename_i hge
        rw [sortedDescBy, List.pairwise_cons]
        refine ⟨?_, ih hts⟩
        intro b hb
        have hb' : b ∈ s :: ts := (insertDescBy_perm key s ts).subset hb
        rcases List.mem_cons.mp hb' with rfl | hmem
        · exact le_of_not_lt hge
        · exact ht b hmem

theorem sortDescBy_perm (key : α → Int) (l : List α) :
    List.Perm (sortDescBy key l) l := by
  induction l with
  | nil => exact List.Perm.refl _
  | cons t ts ih =>
      exact ((insertDescBy_perm key t (sortDescBy key ts)).trans (List.Perm.cons t ih))

theorem sortDescBy_sorted (key : α → Int) (l : List α) :
    sortedDescBy key (sortDescBy key l) := by
  induction l with
  | nil =>
      unfold sortDescBy sortedDescBy
      simp
  | cons t ts ih => exact insertDescBy_sorted key t _ ih

/-- `find?` on a descending-sorted list returns an element whose key is
maximal among all matching elements. -/
theorem find?_sortedDescBy_max (key : α → Int) (p : α → Bool) (l : List α) :
    sortedDescBy key l → ∀ a, l.find? p = some a →
      ∀ b ∈ l, p b = true → key b ≤ key a := by
  induction l with
  | nil => intro _ a ha; simp at ha
  | cons t ts ih =>
      intro hs a ha b hb hpb
      rw [sortedDescBy, List.pairwise_cons] at hs
      obtain ⟨ht, hts⟩ := hs
      by_cases hpt : p t = true
      · rw [List.find?_cons_of_pos _ hpt, Option.some_inj] at ha
        rcases List.mem_cons.mp hb with rfl | hmem
        · exact le_of_eq (congrArg key ha)
        · exact ha ▸ ht b hmem
      · rw [List.find?_cons_of_neg _ hpt] at ha
        rcases List.mem_cons.mp hb with rfl | hmem
        · exact absurd hpb hpt
        · exact ih hts a ha b hmem hpb

/-! ## `find?` existence helpers -/

theorem find?_isSome_iff (p : α → Bool) (l : List α) :
    (l.find? p).isSome = true ↔ ∃ a ∈ l, p a = true := by
  induction l with
  | nil => simp
  | cons t ts ih =>
      by_cases hpt : p t = true
      · simp [List.find?_cons_of_pos _ hpt, hpt]
      · simp only [List.find?_cons_of_neg _ hpt, ih, List.mem_cons]
        constructor
        · rintro ⟨a, ha, hpa⟩
          exact ⟨a, Or.inr ha, hpa⟩
        · rintro ⟨a, ha | ha, hpa⟩
          · exact absurd (ha ▸ hpa) hpt
          · exact ⟨a, ha, hpa⟩

theorem find?_eq_none_iff (p : α → Bool) (l : List α) :
    l.find? p = none ↔ ∀ a ∈ l, p a = false := by
  constructor
  · intro h a ha
    simpa using List.find?_eq_none.mp h a ha
  · intro h
    exact List.find?_eq_none.mpr (fun a ha => by simp [h a ha])

/-- Unfolding of the duplicate predicate. -/
theorem dupPred_iff (tracking : JStr) (dayStart : Int) (s : Scan) :
    dupPred tracking dayStart s = true ↔
      s.tracking = tracking ∧ dayStart ≤ s.timestamp ∧
        s.timestamp ≤ dayStart + 86399999 := by
  simp [dupPred, Bool.and_eq_true, and_assoc]

/-- `checkDuplicateToday` finds something iff a same-code scan of the
current day is stored. -/
theorem checkDuplicateToday_isSome_iff (db : DB) (tracking : JStr) (dayStart : Int) :
    (checkDuplicateToday db tracking dayStart).isSome = true ↔
      ∃ s ∈ db.scans, s.tracking = tracking ∧ dayStart ≤ s.timestamp ∧
        s.timestamp ≤ dayStart + 86399999 := by
  rw [checkDuplicateToday, find?_isSome_iff]
  constructor
  · rintro ⟨s, hs, hp⟩
    exact ⟨s, hs, (dupPred_iff tracking dayStart s).mp hp⟩
  · rintro ⟨s, hs, hp⟩
    exact ⟨s, hs, (dupPred_iff tracking dayStart s).mpr hp⟩

theorem remoteGet_perm (store : List RemoteScan) :
    List.Perm (remoteGet store) store :=
  sortDescBy_perm _ _

theorem remoteGet_sorted (store : List RemoteScan) :
    sortedDescBy (·.timestamp) (remoteGet store) :=
  sortDescBy_sorted _ _

/-! ## Ingestion (C1) -/

theorem ingest_eq_duplicate (db : DB) (raw : JStr) (now dayStart : Int) (dn : JStr)
    (s : Scan) (h : checkDuplicateToday db (normalizeTracking raw) dayStart = some s) :
    ingest db raw now dayStart dn = .duplicate (normalizeTracking raw) := by
  unfold ingest
  rw [h]

theorem ingest_eq_ok (db : DB) (raw : JStr) (now dayStart : Int) (dn : JStr)
    (h : checkDuplicateToday db (normalizeTracking raw) dayStart = none) :
    ingest db raw now dayStart dn =
      .ok ⟨db.nextId + 1,
           db.scans ++ [⟨db.nextId, normalizeTracking raw, now, dn, false⟩]⟩
          db.nextId := by
  unfold ingest
  rw [h]
  rfl

/-- **C1.** Scan Ingestion normalizes the raw code and yields the
`DUPLICATE` error exactly when the store already holds a scan with
equal normalized tracking whose timestamp lies in
`[startOfDay, startOfDay + 86399999]`; a same-code scan 25 hours old
is never flagged; with no same-day match, a new scan is inserted with
`timestamp = now`, `checked = false` and the configured device name. -/
theorem ingest_dedup_same_day (db : DB) (raw : JStr) (now dayStart : Int)
    (dn : JStr) (h1 : dayStart ≤ now) (h2 : now ≤ dayStart + 86399999) :
    (ingest db raw now dayStart dn = .duplicate (normalizeTracking raw) ↔
      ∃ s ∈ db.scans, s.tracking = normalizeTracking raw ∧
        dayStart ≤ s.timestamp ∧ s.timestamp ≤ dayStart + 86399999)
    ∧ ((¬ ∃ s ∈ db.scans, s.tracking = normalizeTracking raw ∧
          dayStart ≤ s.timestamp ∧ s.timestamp ≤ dayStart + 86399999) →
        ingest db raw now dayStart dn =
          .ok ⟨db.nextId + 1,
               db.scans ++ [⟨db.nextId, normalizeTracking raw, now, dn, false⟩]⟩
              db.nextId)
    ∧ ((∀ s ∈ db.scans, s.tracking = normalizeTracking raw →
          s.timestamp ≤ now - 90000000) →
        ingest db raw now dayStart dn ≠ .duplicate (normalizeTracking raw)) := by
  have hiff : (ingest db raw now dayStart dn = .duplicate (normalizeTracking raw) ↔
      ∃ s ∈ db.scans, s.tracking = normalizeTracking raw ∧
        dayStart ≤ s.timestamp ∧ s.timestamp ≤ dayStart + 86399999) := by
    cases hc : checkDuplicateToday db (normalizeTracking raw) dayStart with
    | none =>
        rw [ingest_eq_ok db raw now dayStart dn hc]
        constructor
        · intro h
          exact absurd h (by simp)
        · intro h
          have : (checkDuplicateToday db (normalizeTracking raw) dayStart).isSome = true :=
            (checkDuplicateToday_isSome_iff db (normalizeTracking raw) dayStart).mpr h
          rw [hc] at this
          simp at this
    | some s =>
        rw [ingest_eq_duplicate db raw now dayStart dn s hc]
        simp only [true_iff]
        exact (checkDuplicateToday_isSome_iff db (normalizeTracking raw) dayStart).mp
          (by rw [hc]; rfl)
  refine ⟨hiff, ?_, ?_⟩
  · intro hno
    cases hc : checkDuplicateToday db (normalizeTracking raw) dayStart with
    | none => exact ingest_eq_ok db raw now dayStart dn hc
    | some s =>
        exact absurd (hiff.mp (ingest_eq_duplicate db raw now dayStart dn s hc)) hno
  · intro hold hdup
    obtain ⟨s, hs, htr, hlo, _⟩ := hiff.mp hdup
    have := hold s hs htr
    omega

/-- **C1 witness.** A store holding `ABC123` scanned 25 hours ago: a
rescan of `"abc 123"` now is not flagged and is inserted; rescanned one
minute after a same-day insert, it is flagged. -/
theorem ingest_dedup_same_day_witness :
    (ingest ⟨2, [⟨1, codes "ABC123", 86400000 + 39600000 - 90000000, codes "Dev", false⟩]⟩
        (codes "abc 123") (86400000 + 39600000) 86400000 (codes "Dev")
      ≠ .duplicate (normalizeTracking (codes "abc 123")))
    ∧ (ingest ⟨2, [⟨1, codes "ABC123", 86400000 + 39600000, codes "Dev", false⟩]⟩
        (codes "abc 123") (86400000 + 39600000 + 60000) 86400000 (codes "Dev")
      = .duplicate (normalizeTracking (codes "abc 123"))) := by
  constructor
  · exact (ingest_dedup_same_day
      ⟨2, [⟨1, codes "ABC123", 86400000 + 39600000 - 90000000, codes "Dev", false⟩]⟩
      (codes "abc 123") (86400000 + 39600000) 86400000 (codes "Dev")
      (by decide) (by decide)).2.2 (by decide)
  · exact (ingest_dedup_same_day
      ⟨2, [⟨1, codes "ABC123", 86400000 + 39600000, codes "Dev", false⟩]⟩
      (codes "abc 123") (86400000 + 39600000 + 60000) 86400000 (codes "Dev")
      (by decide) (by decide)).1.mpr
      ⟨⟨1, codes "ABC123", 86400000 + 39600000, codes "Dev", false⟩,
        by decide, by decide, by decide, by decide⟩

/-! ## Search (C3, C4) -/

/-- **C3.** Search normalizes the term and returns only (and at most
`limit` of) the stored scans whose tracking contains the normalized
term as a substring; when at most `limit` scans match, every matching
scan — matching by containment, not by prefix — is returned. Both the
Dexie `searchScans` and the cloud-only variant are covered. -/
theorem searchScans_substring_sound_complete (db : DB) (store : List RemoteScan)
    (term : JStr) (limit : Nat)
    (hcount : (db.scans.filter (searchMatch term)).length ≤ limit) :
    (∀ s ∈ searchScans db term limit,
        s ∈ db.scans ∧ jsIncludes s.tracking (normalizeTracking term) = true)
    ∧ (searchScans db term limit).length ≤ limit
    ∧ (∀ s ∈ db.scans, jsIncludes s.tracking (normalizeTracking term) = true →
        s ∈ searchScans db term limit)
    ∧ (∀ s ∈ cloudSearchScans store term limit,
        s ∈ store ∧ jsIncludes s.tracking (normalizeTracking term) = true)
    ∧ (cloudSearchScans store term limit).length ≤ limit := by
  refine ⟨?_, ?_, ?_, ?_, ?_⟩
  · intro s hs
    have hf := List.mem_of_mem_take hs
    have := List.mem_filter.mp hf
    exact ⟨List.mem_reverse.mp this.1, this.2⟩
  · exact List.length_take_le _ _
  · intro s hs hm
    have hfilterlen : ((db.scans.reverse).filter (searchMatch term)).length ≤ limit := by
      rw [List.filter_reverse, List.length_reverse]
      exact hcount
    rw [searchScans, List.take_of_length_le hfilterlen]
    exact List.mem_filter.mpr ⟨List.mem_reverse.mpr hs, hm⟩
  · intro s hs
    have hf := List.mem_of_mem_take hs
    have := List.mem_filter.mp hf
    exact ⟨(remoteGet_perm store).subset this.1, this.2⟩
  · exact List.length_take_le _ _


/-- **C3 witness.** The stored tracking `XYZ999ABC` is returned when
searching the normalized term `99AB` (containment, not prefix). -/
theorem searchScans_substring_witness :
    (⟨1, codes "XYZ999ABC", 5, codes "Dev", false⟩ : Scan) ∈
      searchScans ⟨2, [⟨1, codes "XYZ999ABC", 5, codes "Dev", false⟩]⟩
        (codes "99AB") 200 :=
  (searchScans_substring_sound_complete
      ⟨2, [⟨1, codes "XYZ999ABC", 5, codes "Dev", false⟩]⟩ []
      (codes "99AB") 200 (by decide)).2.2.1
    ⟨1, codes "XYZ999ABC", 5, codes "Dev", false⟩ (by decide) (by decide)

/-- A store whose second (higher-key) record has an older timestamp,
as import can produce. -/
def outOfOrderDB : DB :=
  ⟨3, [⟨1, codes "AAA", 100, codes "Dev", false⟩,
       ⟨2, codes "BBB", 50, codes "Dev", false⟩]⟩

/-- **C4 counterexample.** On a store whose records were inserted out
of timestamp order, Dexie `searchScans` (which traverses the unindexed
collection in primary-key order and merely reverses it) does *not*
return results newest-first by timestamp: searching the empty term
returns timestamps `[50, 100]`. -/
theorem searchScans_newest_first_cex :
    (searchScans outOfOrderDB (codes "") 200).map (·.timestamp) = [50, 100]
    ∧ ¬ sortedDescBy (·.timestamp) (searchScans outOfOrderDB (codes "") 200) := by
  constructor
  · decide
  · intro h
    rw [sortedDescBy] at h
    have : (100 : Int) ≤ 50 := by
      have hmem : (⟨1, codes "AAA", 100, codes "Dev", false⟩ : Scan) ∈
          [(⟨1, codes "AAA", 100, codes "Dev", false⟩ : Scan)] := by decide
      have heq : searchScans outOfOrderDB (codes "") 200 =
          [⟨2, codes "BBB", 50, codes "Dev", false⟩,
           ⟨1, codes "AAA", 100, codes "Dev", false⟩] := by decide
      rw [heq] at h
      exact (List.pairwise_cons.mp h).1 _ hmem
    omega

/-- **C4 (amended).** For *every* store content — including records
inserted out of timestamp order, e.g. via import — `getAll` returns
all stored scans sorted newest-first by timestamp. Dexie `searchScans`
returns results in descending primary-key (insertion) order, which is
newest-first by timestamp only when insertion order respects
timestamp order, as with live scanning. -/
theorem getAllScans_sorted_searchScans_pk_order (db : DB) (term : JStr)
    (limit : Nat) :
    sortedDescBy (·.timestamp) (getAllScans db)
    ∧ List.Perm (getAllScans db) db.scans
    ∧ (db.scans.Pairwise (fun a b => a.timestamp ≤ b.timestamp) →
        sortedDescBy (·.timestamp) (searchScans db term limit)) := by
  refine ⟨sortDescBy_sorted _ _, sortDescBy_perm _ _, ?_⟩
  intro h
  have hrev : sortedDescBy (·.timestamp) db.scans.reverse := by
    rw [sortedDescBy, List.pairwise_reverse]
    exact h
  rw [sortedDescBy] at hrev ⊢
  exact (hrev.sublist (List.filter_sublist _)).sublist (List.take_sublist _ _)

/-- **C4 witness.** After inserts at timestamps 10 < 20 < 30 (in
insertion order), `getAll` is newest-first and so is search; on the
out-of-timestamp-order store, `getAll` is newest-first all the same. -/
theorem getAllScans_sorted_witness :
    sortedDescBy (·.timestamp)
      (getAllScans ⟨4, [⟨1, codes "A", 10, codes "D", false⟩,
        ⟨2, codes "B", 20, codes "D", false⟩, ⟨3, codes "C", 30, codes "D", false⟩]⟩)
    ∧ List.Perm
      (getAllScans ⟨4, [⟨1, codes "A", 10, codes "D", false⟩,
        ⟨2, codes "B", 20, codes "D", false⟩, ⟨3, codes "C", 30, codes "D", false⟩]⟩)
      [⟨1, codes "A", 10, codes "D", false⟩, ⟨2, codes "B", 20, codes "D", false⟩,
       ⟨3, codes "C", 30, codes "D", false⟩]
    ∧ sortedDescBy (·.timestamp)
      (searchScans ⟨4, [⟨1, codes "A", 10, codes "D", false⟩,
        ⟨2, codes "B", 20, codes "D", false⟩, ⟨3, codes "C", 30, codes "D", false⟩]⟩
        (codes "") 200)
    ∧ sortedDescBy (·.timestamp) (getAllScans outOfOrderDB) :=
  ⟨(getAllScans_sorted_searchScans_pk_order
      ⟨4, [⟨1, codes "A", 10, codes "D", false⟩, ⟨2, codes "B", 20, codes "D", false⟩,
           ⟨3, codes "C", 30, codes "D", false⟩]⟩ (codes "") 200).1,
   (getAllScans_sorted_searchScans_pk_order
      ⟨4, [⟨1, codes "A", 10, codes "D", false⟩, ⟨2, codes "B", 20, codes "D", false⟩,
           ⟨3, codes "C", 30, codes "D", false⟩]⟩ (codes "") 200).2.1,
   (getAllScans_sorted_searchScans_pk_order
      ⟨4, [⟨1, codes "A", 10, codes "D", false⟩, ⟨2, codes "B", 20, codes "D", false⟩,
           ⟨3, codes "C", 30, codes "D", false⟩]⟩ (codes "") 200).2.2 (by decide),
   (getAllScans_sorted_searchScans_pk_order outOfOrderDB (codes "") 200).1⟩

/-! ## Remote DELETE (C6) and cloud exact lookup (C10) -/

theorem remoteDelete_foldl (ids : List JStr) (store : List RemoteScan) :
    ids.foldl (fun st i => st.filter (fun s => !(s.id == i))) store =
      store.filter (fun s => !(ids.contains s.id)) := by
  induction ids generalizing store with
  | nil => simp
  | cons i rest ih =>
      rw [List.foldl_cons, ih, List.filter_filter]
      congr 1
      funext s
      rw [List.contains_cons]
      cases hb : s.id == i <;> cases hc : rest.contains s.id <;> rfl

/-- **C6 counterexample.** With a store holding only id `"a"`, deleting
`["a", "b"]` responds `deleted: 2`, although only one of the listed
ids exists: unknown ids are counted, not ignored in the count. -/
theorem remoteDelete_count_cex :
    (remoteDelete [⟨codes "a", codes "AAA", 1, codes "D", false⟩]
        [codes "a", codes "b"]).2 ≠
      (([codes "a", codes "b"] : List JStr).filter
        (fun i => [(⟨codes "a", codes "AAA", 1, codes "D", false⟩ : RemoteScan)].any
          (fun s => s.id == i))).length := by
  decide

/-- **C6 (amended).** The remote DELETE deletes each listed id that
exists, silently ignores unknown ids (no error), and responds `200`
with `{ success: true, deleted: ids.length }` — the count is the number
of ids in the request, unknown ids included. -/
theorem remoteDelete_spec (store : List RemoteScan) (ids : List JStr) :
    (remoteDelete store ids).2 = ids.length
    ∧ ∀ s, s ∈ (remoteDelete store ids).1 ↔ (s ∈ store ∧ ¬ s.id ∈ ids) := by
  refine ⟨rfl, ?_⟩
  intro s
  rw [remoteDelete]
  simp only [remoteDelete_foldl, List.mem_filter, Bool.not_eq_true']
  constructor
  · rintro ⟨hmem, hc⟩
    refine ⟨hmem, fun hin => ?_⟩
    have h2 : ids.contains s.id = true := List.elem_iff.mpr hin
    rw [hc] at h2
    simp at h2
  · rintro ⟨hmem, hnin⟩
    refine ⟨hmem, ?_⟩
    cases h : ids.contains s.id with
    | false => rfl
    | true =>
        have h2 : List.elem s.id ids = true := h
        exact absurd (List.elem_iff.mp h2) hnin

/-- **C10.** In the cloud-only store, `getScanByTracking` returns the
stored match with the greatest timestamp: the remote GET responds
newest-first (a sorted permutation of the blobs) and
`getScanByTracking` takes the first matching element. -/
theorem cloudGetScanByTracking_latest (store : List RemoteScan) (t : JStr) :
    (cloudGetScanByTracking store t = none ↔ ∀ s ∈ store, s.tracking ≠ t)
    ∧ (∀ s, cloudGetScanByTracking store t = some s →
        s ∈ store ∧ s.tracking = t ∧
          ∀ s' ∈ store, s'.tracking = t → s'.timestamp ≤ s.timestamp)
    ∧ sortedDescBy (·.timestamp) (remoteGet store)
    ∧ List.Perm (remoteGet store) store := by
  refine ⟨?_, ?_, remoteGet_sorted store, remoteGet_perm store⟩
  · rw [cloudGetScanByTracking, find?_eq_none_iff]
    constructor
    · intro h s hs hte
      have := h s ((remoteGet_perm store).symm.subset hs)
      rw [hte] at this
      simp at this
    · intro h s hs
      have := h s ((remoteGet_perm store).subset hs)
      simpa using this
  · intro s hfind
    have hmem : s ∈ remoteGet store := List.mem_of_find?_eq_some hfind
    have htr : s.tracking = t := by
      have := List.find?_some hfind
      simpa using this
    refine ⟨(remoteGet_perm store).subset hmem, htr, ?_⟩
    intro s' hs' hs't
    exact find?_sortedDescBy_max (·.timestamp) _ (remoteGet store)
      (remoteGet_sorted store) s hfind s'
      ((remoteGet_perm store).symm.subset hs')
      (by simpa using hs't)

/-! ## Bulk verify (C7) -/

/-- A separator of the bulk-input split regex `[\n,;]+`. -/
def isBulkSep (c : Nat) : Bool := c == 10 || c == 44 || c == 59

/-- Split on single separator characters. The source splits on runs
(`[\n,;]+`); the empty segments produced here between adjacent
separators are removed by `parseBulkInput`'s emptiness filter, so the
final code list coincides. -/
def splitSepsAux (cur : JStr) : JStr → List JStr
  | [] => [cur.reverse]
  | c :: rest =>
      if isBulkSep c then cur.reverse :: splitSepsAux [] rest
      else splitSepsAux (c :: cur) rest

/-- `parseBulkInput` from `src/pages/Scan.tsx`: split on `[\n,;]+`,
trim, drop empties, normalize each. -/
def parseBulkInput (input : JStr) : List JStr :=
  (((splitSepsAux [] input).map jsTrim).filter
    (fun l => decide (0 < l.length))).map normalizeTracking

/-- One entry of the bulk verify output (`BulkSearchResult`). -/
structure BulkResult where
  tracking : JStr
  found : Bool
  scan : Option Scan
  suggestions : List Scan
deriving DecidableEq, Repr

/-- `performBulkSearch` from `src/pages/Scan.tsx`: for each parsed
code, exact lookup plus up-to-5 substring suggestions with the
exact-match self-hit filtered out. -/
def performBulkSearch (db : DB) (input : JStr) : List BulkResult :=
  (parseBulkInput input).map fun tracking =>
    let exactMatch := getScanByTracking db tracking
    let suggestions :=
      (searchScans db tracking 5).filter (fun s => !(s.tracking == tracking))
    ⟨tracking, exactMatch.isSome, exactMatch, suggestions⟩

/-- **C7.** Bulk verify splits its input on newlines/commas/semicolons,
trims, drops empties and normalizes each code; one result per code in
input order; `found = true` exactly when an exact-match scan is
stored; suggestions are at most 5 stored substring matches with any
exact-match self-hit excluded. -/
theorem performBulkSearch_spec (db : DB) (input : JStr) :
    (performBulkSearch db input).map (·.tracking) = parseBulkInput input
    ∧ ∀ r ∈ performBulkSearch db input,
        (r.found = true ↔ ∃ s ∈ db.scans, s.tracking = r.tracking)
        ∧ r.suggestions.length ≤ 5
        ∧ ∀ s ∈ r.suggestions,
            s ∈ db.scans ∧ jsIncludes s.tracking (normalizeTracking r.tracking) = true
              ∧ s.tracking ≠ r.tracking := by
  constructor
  · rw [performBulkSearch, List.map_map]
    exact List.map_congr_left (fun t _ => rfl) |>.trans (List.map_id _)
  · intro r hr
    rw [performBulkSearch, List.mem_map] at hr
    obtain ⟨t, _, rfl⟩ := hr
    refine ⟨?_, ?_, ?_⟩
    · simp only [Option.isSome_iff_exists]
      constructor
      · rintro ⟨s, hs⟩
        refine ⟨s, List.mem_of_find?_eq_some hs, ?_⟩
        have := List.find?_some hs
        simpa using this
      · rintro ⟨s, hs, hst⟩
        have : (getScanByTracking db t).isSome = true := by
          rw [getScanByTracking, find?_isSome_iff]
          exact ⟨s, hs, by simpa using hst⟩
        exact Option.isSome_iff_exists.mp this
    · calc ((searchScans db t 5).filter (fun s => !(s.tracking == t))).length
          ≤ (searchScans db t 5).length := List.length_filter_le _ _
        _ ≤ 5 := List.length_take_le _ _
    · intro s hs
      have hmem := List.mem_filter.mp hs
      have hsearch := List.mem_filter.mp (List.mem_of_mem_take hmem.1)
      refine ⟨List.mem_reverse.mp hsearch.1, hsearch.2, ?_⟩
      have := hmem.2
      simpa using this

/-! ## Import row validation (C5) -/

/-- A dynamically-typed JS value as it appears in a parsed import row
(string, number or boolean). -/
inductive JsVal where
  | vnum (n : Int)
  | vstr (s : JStr)
  | vbool (b : Bool)
deriving DecidableEq, Repr

/-- JS truthiness of a `JsVal`. -/
def jsTruthy : JsVal → Bool
  | .vnum n => !(n == 0)
  | .vstr s => !(s == ([] : JStr))
  | .vbool b => b

/-- The fields of `ImportedScanData` (`src/lib/import.ts`): every field
optional and dynamically typed. -/
structure ImportedScanData where
  tracking : Option JsVal := none
  timestamp : Option JsVal := none
  date : Option JsVal := none
  time : Option JsVal := none
  checked : Option JsVal := none
  deviceName : Option JsVal := none
deriving DecidableEq, Repr

/-- The per-row error messages of `validateAndNormalizeScan`, tagged
with the 1-based row index baked into the message text. -/
inductive RowError where
  | missingTracking (row : Nat)
  | invalidTimestamp (row : Nat)
  | badDateTime (row : Nat)
deriving DecidableEq, Repr

/-- Is a code point an ASCII decimal digit? -/
def isDigit (c : Nat) : Bool := decide (48 ≤ c) && decide (c ≤ 57)

/-- Value of a list of ASCII digit code points, most significant
first. -/
def digitsVal (l : JStr) : Nat := l.foldl (fun acc c => acc * 10 + (c - 48)) 0

/-- The unsigned part of `parseInt(s, 10)`: longest leading digit run,
`NaN` (none) when there is none. -/
def parseUnsigned (r : JStr) : Option Nat :=
  if (r.takeWhile isDigit).isEmpty then none
  else some (digitsVal (r.takeWhile isDigit))

/-- Head dispatch of `parseInt(s, 10)` after whitespace skipping:
optional sign, then the longest leading digit run; `NaN` (none) when no
digit follows. -/
def jsParseIntCore : JStr → Option Int
  | [] => none
  | c :: r =>
      if c == 43 then (parseUnsigned r).map (fun (n : Nat) => (n : Int))
      else if c == 45 then (parseUnsigned r).map (fun (n : Nat) => -(n : Int))
      else (parseUnsigned (c :: r)).map (fun (n : Nat) => (n : Int))

/-- `parseInt(s, 10)`: skip leading whitespace, then parse. -/
def jsParseInt (s : JStr) : Option Int := jsParseIntCore (s.dropWhile jsWhitespace)

/-- The raw tracking string of a row (`data.tracking!`, only consulted
after validation). -/
def trackStr (d : ImportedScanData) : JStr :=
  match d.tracking with
  | some (.vstr s) => s
  | _ => []

/-- The tracking errors of `validateAndNormalizeScan`: error unless the
field is a truthy string whose trim is nonempty. -/
def trackErrs (d : ImportedScanData) (i : Nat) : List RowError :=
  match d.tracking with
  | some (.vstr s) =>
      if s ≠ [] ∧ jsTrim s ≠ [] then [] else [.missingTracking i]
  | _ => [.missingTracking i]

/-- The timestamp coercion of `validateAndNormalizeScan`: a number is
taken as-is; a string goes through `parseInt` (error + `Date.now()`
fallback when `NaN`); otherwise a truthy date/time pair goes through
`new Date(...)` (modelled by the parameter `pdt`, error + fallback when
unparseable); otherwise fall back to `Date.now()` silently. -/
def tsCoerce (pdt : JsVal → JsVal → Option Int) (now : Int)
    (d : ImportedScanData) (i : Nat) : Int × List RowError :=
  match d.timestamp with
  | some (.vnum n) => (n, [])
  | some (.vstr s) =>
      match jsParseInt s with
      | none => (now, [.invalidTimestamp i])
      | some v => (v, [])
  | _ =>
      match d.date, d.time with
      | some dv, some tv =>
          if jsTruthy dv && jsTruthy tv then
            match pdt dv tv with
            | none => (now, [.badDateTime i])
            | some v => (v, [])
          else (now, [])
      | _, _ => (now, [])

/-- The checked coercion: boolean as-is, string compared (lowercased)
to `"true"`, default `false`. -/
def checkedCoerce (d : ImportedScanData) : Bool :=
  match d.checked with
  | some (.vbool b) => b
  | some (.vstr s) => lowerStr s == codes "true"
  | _ => false

/-- The deviceName coercion: a truthy string is trimmed, anything else
becomes `"Unknown"`. -/
def deviceNameCoerce (d : ImportedScanData) : JStr :=
  match d.deviceName with
  | some (.vstr s) => if s ≠ [] then jsTrim s else codes "Unknown"
  | _ => codes "Unknown"

/-- Result of one row: the scan (when no error) and the collected
error messages (scan `null` when any). -/
structure RowResult where
  scan : Option ScanData
  error : List RowError
deriving DecidableEq, Repr

/-- `validateAndNormalizeScan` from `src/lib/import.ts`. -/
def validateAndNormalizeScan (pdt : JsVal → JsVal → Option Int) (now : Int)
    (d : ImportedScanData) (i : Nat) : RowResult :=
  if (trackErrs d i ++ (tsCoerce pdt now d i).2).isEmpty then
    ⟨some ⟨normalizeTracking (trackStr d), (tsCoerce pdt now d i).1,
      deviceNameCoerce d, checkedCoerce d⟩, []⟩
  else ⟨none, trackErrs d i ++ (tsCoerce pdt now d i).2⟩

/-- Aggregate outcome of the per-row loop of `parseCSV` / `parseJSON`. -/
structure ImportOutcome where
  imported : Nat
  skipped : Nat
  errors : List RowError
  scans : List ScanData
deriving DecidableEq, Repr

/-- The `results.data.forEach` loop of `parseCSV` / `parseJSON`: every
row is validated independently; an erroneous row adds its message and a
skip, a valid row adds its scan. -/
def processRows (pdt : JsVal → JsVal → Option Int) (now : Int) :
    List ImportedScanData → Nat → ImportOutcome
  | [], _ => ⟨0, 0, [], []⟩
  | d :: ds, i =>
      let r := validateAndNormalizeScan pdt now d i
      let rest := processRows pdt now ds (i + 1)
      match r.scan with
      | some sc =>
          ⟨rest.imported + 1, rest.skipped, r.error ++ rest.errors, sc :: rest.scans⟩
      | none => ⟨rest.imported, rest.skipped + 1, r.error ++ rest.errors, rest.scans⟩

/-- **C5 counterexample.** A row whose tracking is the valid string
`"ABC"` but whose timestamp is the unparseable string `"oops"` is
*rejected* (`scan = null` with an `Invalid timestamp format` error),
not imported with a current-time fallback as the claim states. -/
theorem import_bad_timestamp_rejected_cex :
    (validateAndNormalizeScan (fun _ _ => none) 777
        ⟨some (.vstr (codes "ABC")), some (.vstr (codes "oops")),
         none, none, none, none⟩ 2).scan = none
    ∧ (validateAndNormalizeScan (fun _ _ => none) 777
        ⟨some (.vstr (codes "ABC")), some (.vstr (codes "oops")),
         none, none, none, none⟩ 2).error = [.invalidTimestamp 2]
    ∧ trackErrs ⟨some (.vstr (codes "ABC")), some (.vstr (codes "oops")),
         none, none, none, none⟩ 2 = [] := by
  decide

/-- The tracking validation records its error exactly for an absent,
non-string or blank (trim-empty) tracking value. -/
theorem trackErrs_of_bad (d : ImportedScanData) (i : Nat)
    (h : ∀ s, d.tracking = some (.vstr s) → s = [] ∨ jsTrim s = []) :
    trackErrs d i = [.missingTracking i] := by
  cases hd : d.tracking with
  | none => simp [trackErrs, hd]
  | some v =>
      cases v with
      | vnum n => simp [trackErrs, hd]
      | vbool b => simp [trackErrs, hd]
      | vstr s =>
          have := h s hd
          simp only [trackErrs, hd]
          rw [if_neg]
          push_neg
          intro hne
          rcases this with h1 | h1
          · exact absurd h1 hne
          · exact h1

/-- A present, truthy but unparseable date+time pair (with no usable
timestamp field) records the date/time error with the current-time
fallback. -/
theorem tsCoerce_dateTime_bad (pdt : JsVal → JsVal → Option Int) (now : Int)
    (d : ImportedScanData) (i : Nat) (dv tv : JsVal)
    (hts : d.timestamp = none ∨ ∃ b, d.timestamp = some (.vbool b))
    (hd : d.date = some dv) (ht : d.time = some tv)
    (htru : (jsTruthy dv && jsTruthy tv) = true) (hpdt : pdt dv tv = none) :
    tsCoerce pdt now d i = (now, [.badDateTime i]) := by
  rcases hts with h | ⟨b, h⟩ <;> simp [tsCoerce, h, hd, ht, htru, hpdt]

/-- **C5 (amended).** For every row: it is rejected (`scan = null`)
exactly when an error was recorded; tracking absent/blank rejects it,
a timestamp string that `parseInt` cannot parse rejects it, and a
present-but-unparseable date+time pair rejects it. A row with no
timestamp and no date falls back to the current time silently and is
imported when its tracking is valid. Row errors are collected and a
bad row only counts as skipped — every row of the batch is still
processed (`imported + skipped = totalRows`). -/
theorem import_row_validation_spec (pdt : JsVal → JsVal → Option Int) (now : Int)
    (i : Nat) (rows : List ImportedScanData) (j : Nat) :
    (∀ d : ImportedScanData,
        ((validateAndNormalizeScan pdt now d i).scan = none ↔
          (validateAndNormalizeScan pdt now d i).error ≠ []))
    ∧ (∀ d : ImportedScanData,
        (∀ s, d.tracking = some (.vstr s) → s = [] ∨ jsTrim s = []) →
        (validateAndNormalizeScan pdt now d i).scan = none)
    ∧ (∀ (d : ImportedScanData) (s : JStr), d.timestamp = some (.vstr s) →
        jsParseInt s = none →
        (validateAndNormalizeScan pdt now d i).scan = none)
    ∧ (∀ (d : ImportedScanData) (dv tv : JsVal),
        (d.timestamp = none ∨ ∃ b, d.timestamp = some (.vbool b)) →
        d.date = some dv → d.time = some tv →
        (jsTruthy dv && jsTruthy tv) = true → pdt dv tv = none →
        (validateAndNormalizeScan pdt now d i).scan = none)
    ∧ (∀ d : ImportedScanData, d.timestamp = none → d.date = none →
        trackErrs d i = [] →
        (validateAndNormalizeScan pdt now d i).scan =
          some ⟨normalizeTracking (trackStr d), now,
            deviceNameCoerce d, checkedCoerce d⟩)
    ∧ (processRows pdt now rows j).imported + (processRows pdt now rows j).skipped
        = rows.length := by
  refine ⟨?_, ?_, ?_, ?_, ?_, ?_⟩
  · intro d
    cases hl : trackErrs d i ++ (tsCoerce pdt now d i).2 with
    | nil =>
        unfold validateAndNormalizeScan
        rw [hl]
        simp
    | cons e es =>
        unfold validateAndNormalizeScan
        rw [hl]
        simp
  · intro d hbadtrack
    have htrack : trackErrs d i = [.missingTracking i] :=
      trackErrs_of_bad d i hbadtrack
    unfold validateAndNormalizeScan
    rw [htrack]
    simp
  · intro d s hts hbad
    have hcoerce : (tsCoerce pdt now d i).2 = [.invalidTimestamp i] := by
      simp only [tsCoerce, hts, hbad]
    unfold validateAndNormalizeScan
    rw [hcoerce]
    simp
  · intro d dv tv hts hd ht htru hpdt
    have hcoerce : (tsCoerce pdt now d i).2 = [.badDateTime i] := by
      rw [tsCoerce_dateTime_bad pdt now d i dv tv hts hd ht htru hpdt]
    unfold validateAndNormalizeScan
    rw [hcoerce]
    simp
  · intro d hts hdate htrack
    have hcoerce : tsCoerce pdt now d i = (now, []) := by
      simp only [tsCoerce, hts, hdate]
    unfold validateAndNormalizeScan
    rw [htrack, hcoerce]
    rfl
  · induction rows generalizing j with
    | nil => rfl
    | cons d ds ih =>
        rw [processRows]
        cases (validateAndNormalizeScan pdt now d j).scan with
        | some sc =>
            simp only [List.length_cons]
            rw [← ih (j + 1)]
            omega
        | none =>
            simp only [List.length_cons]
            rw [← ih (j + 1)]
            omega

/-- **C5 amended witness.** Row 2 with tracking `"ABC"` and timestamp
string `"oops"` is rejected; so are a blank-tracking row and a row with
the unparseable date+time pair `"???" "???"`; a row with tracking only
falls back to `now = 555` and is imported. -/
theorem import_row_validation_witness :
    (validateAndNormalizeScan (fun _ _ => none) 555
        ⟨some (.vstr (codes "ABC")), some (.vstr (codes "oops")),
         none, none, none, none⟩ 2).scan = none
    ∧ (validateAndNormalizeScan (fun _ _ => none) 555
        ⟨some (.vstr (codes "  ")), none, none, none, none, none⟩ 2).scan = none
    ∧ (validateAndNormalizeScan (fun _ _ => none) 555
        ⟨some (.vstr (codes "ABC")), none, some (.vstr (codes "???")),
         some (.vstr (codes "???")), none, none⟩ 2).scan = none
    ∧ (validateAndNormalizeScan (fun _ _ => none) 555
        ⟨some (.vstr (codes "XYZ")), none, none, none, none, none⟩ 2).scan =
        some ⟨codes "XYZ", 555, codes "Unknown", false⟩ := by
  have h := import_row_validation_spec (fun _ _ => none) 555 2 [] 1
  refine ⟨?_, ?_, ?_, ?_⟩
  · exact h.2.2.1 ⟨some (.vstr (codes "ABC")), some (.vstr (codes "oops")),
      none, none, none, none⟩ (codes "oops") rfl (by decide)
  · exact h.2.1 ⟨some (.vstr (codes "  ")), none, none, none, none, none⟩
      (by intro s hs; rw [Option.some_inj, JsVal.vstr.injEq] at hs; right;
          rw [← hs]; decide)
  · exact h.2.2.2.1 ⟨some (.vstr (codes "ABC")), none, some (.vstr (codes "???")),
      some (.vstr (codes "???")), none, none⟩ (.vstr (codes "???"))
      (.vstr (codes "???")) (Or.inl rfl) rfl rfl (by decide) rfl
  · have h5 := h.2.2.2.2.1 ⟨some (.vstr (codes "XYZ")), none, none, none,
      none, none⟩ rfl rfl (by decide)
    rw [h5]
    decide

/-! ## Capture-engine stop/decode interleaving (C9) -/

/-- The state touched by the native-detector scan loop of
`src/pages/Scan.tsx`: the `isScanning` guard flag, whether the
`setInterval` poll is registered, whether the camera stream's tracks
are live, whether a `detector.detect(video)` promise is pending, and
the application state (the scans added by `addScanMutation`). -/
structure EngineState where
  isScanning : Bool
  intervalActive : Bool
  streamActive : Bool
  inFlight : Bool
  store : List JStr
deriving DecidableEq, Repr

/-- Event-loop events of the scan loop. -/
inductive EngineEvent where
  | startDetection
  | tick
  | resolveDetect (found : Option JStr)
  | stop
deriving DecidableEq, Repr

/-- One event-loop step. `tick` is a `detectBarcodes` interval
callback: it checks `isScanning` at entry and then awaits
`detector.detect(videoElement)`. `resolveDetect` is that promise
settling; the source checks nothing after the `await` — a non-empty
result runs `addScanMutation.mutate(tracking)` followed by
`stopScanning()`. `stop` is `stopScanning()`: clears the interval,
resets the reader and stops the camera tracks, but cannot recall the
pending promise. -/
def engineStep (st : EngineState) : EngineEvent → EngineState
  | .startDetection => { st with intervalActive := true }
  | .tick =>
      if st.intervalActive && st.isScanning then { st with inFlight := true }
      else st
  | .resolveDetect found =>
      if st.inFlight then
        match found with
        | some t =>
            { st with
              inFlight := false,
              store := st.store ++ [t],
              isScanning := false,
              intervalActive := false,
              streamActive := false }
        | none => { st with inFlight := false }
      else st
  | .stop =>
      { st with isScanning := false, intervalActive := false, streamActive := false }

/-- Run a trace of event-loop events. -/
def engineRun (st : EngineState) (es : List EngineEvent) : EngineState :=
  es.foldl engineStep st

/-- The engine state right after the camera started streaming. -/
def engineStart : EngineState := ⟨true, false, true, false, []⟩

/-- **C9.** With a decode in flight at the moment of `stop()`, the
decode-success callback still mutates application state after `stop()`
returned: `stop` does cancel the poll interval and release the
camera track (state after the stop trace has an empty store, no
interval, no stream), yet the late `resolveDetect` of the already
pending `detector.detect` call appends a scan, because the
`isScanning` guard runs before the `await`, never after it. -/
theorem stop_late_decode_mutates_state :
    (engineRun engineStart [.startDetection, .tick, .stop]).store = []
    ∧ (engineRun engineStart [.startDetection, .tick, .stop]).isScanning = false
    ∧ (engineRun engineStart [.startDetection, .tick, .stop]).intervalActive = false
    ∧ (engineRun engineStart [.startDetection, .tick, .stop]).streamActive = false
    ∧ (engineRun engineStart [.startDetection, .tick, .stop]).inFlight = true
    ∧ (engineRun engineStart
        [.startDetection, .tick, .stop, .resolveDetect (some (codes "ABC"))]).store
      = [codes "ABC"] := by
  decide

/-! ## Export/import serialization (C2) -/

/-- The logical content of a Scan, ignoring its id. -/
def toData (s : Scan) : ScanData := ⟨s.tracking, s.timestamp, s.deviceName, s.checked⟩

/-- Most-significant-first decimal digit codes of a positive number,
with enough fuel. -/
def natCodesAux : Nat → Nat → JStr
  | 0, _ => []
  | fuel + 1, n => if n = 0 then [] else natCodesAux fuel (n / 10) ++ [n % 10 + 48]

/-- Decimal code points of a natural number
(`Number.prototype.toString` for nonnegative integers). -/
def natCodes (n : Nat) : JStr :=
  if n = 0 then [48] else natCodesAux n n

theorem natCodesAux_eq (fuel : Nat) :
    ∀ n : Nat, n ≤ fuel → natCodesAux fuel n = (Nat.digits 10 n).reverse.map (· + 48) := by
  induction fuel with
  | zero =>
      intro n h
      have h0 : n = 0 := Nat.le_zero.mp h
      subst h0
      simp [natCodesAux]
  | succ f ih =>
      intro n h
      by_cases h0 : n = 0
      · subst h0
        simp [natCodesAux]
      · rw [natCodesAux, if_neg h0]
        have hdiv : n / 10 ≤ f := by
          have := Nat.div_lt_self (Nat.pos_of_ne_zero h0) (by norm_num : 1 < 10)
          omega
        rw [ih (n / 10) hdiv]
        rw [Nat.digits_def' (by norm_num : 1 < 10) (Nat.pos_of_ne_zero h0)]
        rw [List.reverse_cons, List.map_append]
        rfl

/-- The `Nat.digits` characterization of `natCodes`. -/
theorem natCodes_eq (n : Nat) :
    natCodes n = if n = 0 then [48] else (Nat.digits 10 n).reverse.map (· + 48) := by
  rw [natCodes]
  by_cases h0 : n = 0
  · rw [if_pos h0, if_pos h0]
  · rw [if_neg h0, if_neg h0, natCodesAux_eq n n (le_refl n)]

/-- Decimal code points of an integer (`scan.timestamp.toString()`). -/
def intCodes (t : Int) : JStr :=
  if t < 0 then 45 :: natCodes t.natAbs else natCodes t.toNat

/-- `scan.checked.toString()`. -/
def boolCodes (b : Bool) : JStr := if b then codes "true" else codes "false"

/-- A CSV-safe field: no double quote, comma or line feed. -/
def goodFieldB (s : JStr) : Bool :=
  s.all (fun c => !(c == 34) && !(c == 44) && !(c == 10))

theorem goodFieldB_spec (s : JStr) :
    goodFieldB s = true ↔ ∀ c ∈ s, c ≠ 34 ∧ c ≠ 44 ∧ c ≠ 10 := by
  simp [goodFieldB, List.all_eq_true, and_assoc]

theorem dropWhile_eq_self_of_all (p : Nat → Bool) (l : JStr)
    (h : ∀ c ∈ l, p c = false) : l.dropWhile p = l := by
  cases l with
  | nil => rfl
  | cons c cs =>
      rw [List.dropWhile_cons, h c (List.mem_cons_self c cs)]
      simp

theorem takeWhile_eq_self_of_all (p : Nat → Bool) (l : JStr)
    (h : ∀ c ∈ l, p c = true) : l.takeWhile p = l := by
  induction l with
  | nil => rfl
  | cons c cs ih =>
      rw [List.takeWhile_cons, h c (List.mem_cons_self c cs)]
      simp only [if_true]
      rw [ih (fun x hx => h x (List.mem_cons_of_mem c hx))]

theorem natCodes_all_digits (n : Nat) : ∀ c ∈ natCodes n, isDigit c = true := by
  intro c hc
  rw [natCodes_eq] at hc
  by_cases h0 : n = 0
  · rw [if_pos h0] at hc
    simp only [List.mem_singleton] at hc
    subst hc
    decide
  · rw [if_neg h0] at hc
    simp only [List.mem_map, List.mem_reverse] at hc
    obtain ⟨d, hd, rfl⟩ := hc
    have hlt : d < 10 := Nat.digits_lt_base (by norm_num) hd
    simp only [isDigit, Bool.and_eq_true, decide_eq_true_eq]
    omega

theorem natCodes_ne_nil (n : Nat) : natCodes n ≠ [] := by
  rw [natCodes_eq]
  by_cases h0 : n = 0
  · rw [if_pos h0]
    simp
  · rw [if_neg h0]
    simp only [ne_eq, List.map_eq_nil_iff, List.reverse_eq_nil_iff]
    exact Nat.digits_ne_nil_iff_ne_zero.mpr h0

theorem isDigit_not_ws (c : Nat) (h : isDigit c = true) : jsWhitespace c = false := by
  simp only [isDigit, Bool.and_eq_true, decide_eq_true_eq] at h
  simp only [jsWhitespace, decide_eq_false_iff_not, List.mem_cons, List.not_mem_nil,
    or_false]
  push_neg
  omega

theorem foldl_digits_reverse (ds : List Nat) (a : Nat) :
    List.foldl (fun acc d => acc * 10 + d) a ds.reverse =
      a * 10 ^ ds.length + Nat.ofDigits 10 ds := by
  induction ds generalizing a with
  | nil => simp
  | cons d t ih =>
      rw [List.reverse_cons, List.foldl_append]
      simp only [List.foldl_cons, List.foldl_nil, ih, Nat.ofDigits_cons,
        List.length_cons]
      ring

theorem digitsVal_natCodes (n : Nat) : digitsVal (natCodes n) = n := by
  rw [natCodes_eq]
  by_cases h0 : n = 0
  · rw [if_pos h0, h0]
    rfl
  · rw [if_neg h0, digitsVal, List.foldl_map]
    have hfun : (fun (acc : Nat) (c : Nat) => acc * 10 + (c + 48 - 48)) =
        (fun acc d => acc * 10 + d) := by
      funext acc d
      omega
    rw [hfun, foldl_digits_reverse]
    simp [Nat.ofDigits_digits]

theorem parseUnsigned_natCodes (n : Nat) : parseUnsigned (natCodes n) = some n := by
  unfold parseUnsigned
  rw [takeWhile_eq_self_of_all isDigit _ (natCodes_all_digits n)]
  have hemp : (natCodes n).isEmpty = false := by
    cases hnc : natCodes n with
    | nil => exact absurd hnc (natCodes_ne_nil n)
    | cons c cs => rfl
  rw [hemp]
  simp [digitsVal_natCodes]

theorem jsParseInt_intCodes (t : Int) : jsParseInt (intCodes t) = some t := by
  by_cases ht : t < 0
  · rw [intCodes, if_pos ht, jsParseInt]
    have hdw : (45 :: natCodes t.natAbs).dropWhile jsWhitespace =
        45 :: natCodes t.natAbs := by
      apply dropWhile_eq_self_of_all
      intro c hc
      rcases List.mem_cons.mp hc with rfl | hmem
      · decide
      · exact isDigit_not_ws c (natCodes_all_digits _ c hmem)
    rw [hdw, jsParseIntCore]
    have h43 : ((45 : Nat) == 43) = false := by decide
    have h45 : ((45 : Nat) == 45) = true := by decide
    rw [h43, h45]
    simp only [Bool.false_eq_true, if_false, if_true, parseUnsigned_natCodes,
      Option.map_some']
    rw [Option.some_inj]
    show -(t.natAbs : Int) = t
    omega
  · rw [intCodes, if_neg ht, jsParseInt]
    have hdw : (natCodes t.toNat).dropWhile jsWhitespace = natCodes t.toNat := by
      apply dropWhile_eq_self_of_all
      intro c hc
      exact isDigit_not_ws c (natCodes_all_digits _ c hc)
    rw [hdw]
    cases hnc : natCodes t.toNat with
    | nil => exact absurd hnc (natCodes_ne_nil _)
    | cons c cs =>
        have hcdig : isDigit c = true := by
          apply natCodes_all_digits t.toNat
          rw [hnc]
          exact List.mem_cons_self c cs
        have hcb : 48 ≤ c ∧ c ≤ 57 := by
          simpa [isDigit, Bool.and_eq_true, decide_eq_true_eq] using hcdig
        have h43 : (c == 43) = false := by
          simp only [beq_eq_false_iff_ne, ne_eq]
          omega
        have h45 : (c == 45) = false := by
          simp only [beq_eq_false_iff_ne, ne_eq]
          omega
        rw [jsParseIntCore, h43, h45]
        simp only [Bool.false_eq_true, if_false]
        rw [← hnc, parseUnsigned_natCodes]
        simp only [Option.map_some', Option.some_inj]
        show (t.toNat : Int) = t
        omega

/-- `Array.prototype.join(sep)` for a one-character separator. -/
def joinSep (sep : Nat) : List JStr → JStr
  | [] => []
  | [l] => l
  | l :: ls => l ++ sep :: joinSep sep ls

/-- Wrap a field in double quotes, as `exportToCSV` does for
`tracking`, `date`, `time` and `deviceName`. -/
def csvQuote (s : JStr) : JStr := 34 :: (s ++ [34])

/-- The fixed CSV header row of `exportToCSV`. -/
def csvHeader : JStr := codes "tracking,timestamp,date,time,checked,deviceName"

/-- One CSV data row of `exportToCSV` (`src/lib/export.ts`): quoted
tracking, bare timestamp, quoted date/time display strings (the
platform formatters are the parameters `fmtD`, `fmtT`), bare checked,
quoted deviceName, joined by commas. -/
def exportRow (fmtD fmtT : Int → JStr) (s : Scan) : JStr :=
  joinSep 44 [csvQuote s.tracking, intCodes s.timestamp,
    csvQuote (fmtD s.timestamp), csvQuote (fmtT s.timestamp),
    boolCodes s.checked, csvQuote s.deviceName]

/-- `exportToCSV`: header and one row per scan, joined by LF. -/
def exportToCSV (fmtD fmtT : Int → JStr) (scans : List Scan) : JStr :=
  joinSep 10 (csvHeader :: scans.map (exportRow fmtD fmtT))

/-- Split on LF (the newline handling of the CSV parser on
LF-terminated input). -/
def splitLinesAux (cur : JStr) : JStr → List JStr
  | [] => [cur.reverse]
  | c :: rest =>
      if c == 10 then cur.reverse :: splitLinesAux [] rest
      else splitLinesAux (c :: cur) rest

/-- CSV field scanner of one line (the delimited-text parser's
tokenizer, modelling Papa Parse on the exporter's grammar): a double
quote toggles quoted mode, a comma outside quotes ends the field. -/
def parseFieldsAux (inQ : Bool) (cur : JStr) (acc : List JStr) : JStr → List JStr
  | [] => acc ++ [cur.reverse]
  | c :: rest =>
      if inQ then
        if c == 34 then parseFieldsAux false cur acc rest
        else parseFieldsAux true (c :: cur) acc rest
      else
        if c == 34 then parseFieldsAux true cur acc rest
        else if c == 44 then parseFieldsAux false [] (acc ++ [cur.reverse]) rest
        else parseFieldsAux false (c :: cur) acc rest

def parseFields (l : JStr) : List JStr := parseFieldsAux false [] [] l

/-- Header-keyed field access (Papa Parse `header: true`). -/
def lookupField (hs vs : List JStr) (name : JStr) : Option JStr :=
  match hs.findIdx? (fun h => h == name) with
  | some k => vs.get? k
  | none => none

/-- Build the dynamically-typed row object from header and row fields
(every CSV value is a string). -/
def rowToData (hs vs : List JStr) : ImportedScanData :=
  ⟨(lookupField hs vs (codes "tracking")).map .vstr,
   (lookupField hs vs (codes "timestamp")).map .vstr,
   (lookupField hs vs (codes "date")).map .vstr,
   (lookupField hs vs (codes "time")).map .vstr,
   (lookupField hs vs (codes "checked")).map .vstr,
   (lookupField hs vs (codes "deviceName")).map .vstr⟩

/-- The header/rows part of `parseCSV`: first line is the header, each
remaining row is validated (row numbers start at 2, after the header
line 1). -/
def parseCSVLines (pdt : JsVal → JsVal → Option Int) (now : Int) :
    List JStr → ImportOutcome
  | [] => ⟨0, 0, [], []⟩
  | h :: rows =>
      processRows pdt now
        (rows.map (fun r => rowToData (parseFields h) (parseFields r))) 2

/-- `parseCSV` (`src/lib/import.ts`): split lines, skip empty lines
(`skipEmptyLines: true`), then header-keyed row validation. -/
def parseCSV (pdt : JsVal → JsVal → Option Int) (now : Int) (content : JStr) :
    ImportOutcome :=
  parseCSVLines pdt now ((splitLinesAux [] content).filter (fun l => !(l.isEmpty)))

/-- One element of `exportToJSON`'s `scans` array, as the
dynamically-typed object `parseJSON` receives back from
`JSON.parse` (numbers stay numbers, booleans stay booleans). -/
def exportToJSONRow (fmtD fmtT : Int → JStr) (s : Scan) : ImportedScanData :=
  ⟨some (.vstr s.tracking), some (.vnum s.timestamp),
   some (.vstr (fmtD s.timestamp)), some (.vstr (fmtT s.timestamp)),
   some (.vbool s.checked), some (.vstr s.deviceName)⟩

/-- The `scans` array of `exportToJSON` (`src/lib/export.ts`). -/
def exportToJSONData (fmtD fmtT : Int → JStr) (scans : List Scan) :
    List ImportedScanData :=
  scans.map (exportToJSONRow fmtD fmtT)

/-- `parseJSON` (`src/lib/import.ts`) on the structured export: validate
each element of the `scans` array (row numbers start at 1). -/
def parseJSONData (pdt : JsVal → JsVal → Option Int) (now : Int)
    (rows : List ImportedScanData) : ImportOutcome :=
  processRows pdt now rows 1

/-! ### Line and field splitting round trips -/

theorem splitLinesAux_noLF (l : JStr) (h : ∀ c ∈ l, c ≠ 10) :
    ∀ (cur rest : JStr),
      splitLinesAux cur (l ++ rest) = splitLinesAux (l.reverse ++ cur) rest := by
  induction l with
  | nil => intro cur rest; simp
  | cons c cs ih =>
      intro cur rest
      have hc : (c == 10) = false := by
        simpa using h c (List.mem_cons_self c cs)
      rw [List.cons_append, splitLinesAux, hc]
      simp only [Bool.false_eq_true, if_false]
      rw [ih (fun x hx => h x (List.mem_cons_of_mem c hx)) (c :: cur) rest]
      simp [List.append_assoc]

theorem splitLines_joinSep (ls : List JStr) :
    (∀ l ∈ ls, ∀ c ∈ l, c ≠ 10) → ls ≠ [] →
      splitLinesAux [] (joinSep 10 ls) = ls := by
  induction ls with
  | nil => intro _ hne; exact absurd rfl hne
  | cons l ls' ih =>
      intro h _
      have hl : ∀ c ∈ l, c ≠ 10 := h l (List.mem_cons_self l ls')
      cases ls' with
      | nil =>
          show splitLinesAux [] (joinSep 10 [l]) = [l]
          have h2 : splitLinesAux [] (l ++ []) = splitLinesAux (l.reverse ++ []) [] :=
            splitLinesAux_noLF l hl [] []
          simpa [splitLinesAux, joinSep] using h2
      | cons l2 ls'' =>
          show splitLinesAux [] (l ++ 10 :: joinSep 10 (l2 :: ls'')) = l :: l2 :: ls''
          rw [splitLinesAux_noLF l hl [] _]
          rw [splitLinesAux]
          simp only [beq_self_eq_true, if_true, List.append_nil, List.reverse_reverse]
          rw [ih (fun x hx => h x (List.mem_cons_of_mem l hx)) (by simp)]

theorem parseFieldsAux_quoted (l : JStr) (h : ∀ c ∈ l, c ≠ 34) :
    ∀ (cur : JStr) (acc : List JStr) (rest : JStr),
      parseFieldsAux true cur acc (l ++ rest) =
        parseFieldsAux true (l.reverse ++ cur) acc rest := by
  induction l with
  | nil => intro cur acc rest; simp
  | cons c cs ih =>
      intro cur acc rest
      have hc : (c == 34) = false := by
        simpa using h c (List.mem_cons_self c cs)
      rw [List.cons_append, parseFieldsAux]
      simp only [if_true, hc, Bool.false_eq_true, if_false]
      rw [ih (fun x hx => h x (List.mem_cons_of_mem c hx)) (c :: cur) acc rest]
      simp [List.append_assoc]

theorem parseFieldsAux_plain (l : JStr) (h : ∀ c ∈ l, c ≠ 34 ∧ c ≠ 44) :
    ∀ (cur : JStr) (acc : List JStr) (rest : JStr),
      parseFieldsAux false cur acc (l ++ rest) =
        parseFieldsAux false (l.reverse ++ cur) acc rest := by
  induction l with
  | nil => intro cur acc rest; simp
  | cons c cs ih =>
      intro cur acc rest
      have hc : (c == 34) = false := by
        simpa using (h c (List.mem_cons_self c cs)).1
      have hc2 : (c == 44) = false := by
        simpa using (h c (List.mem_cons_self c cs)).2
      rw [List.cons_append, parseFieldsAux]
      simp only [hc, hc2, Bool.false_eq_true, if_false]
      rw [ih (fun x hx => h x (List.mem_cons_of_mem c hx)) (c :: cur) acc rest]
      simp [List.append_assoc]

theorem parse_quoted_field (content : JStr) (h : ∀ c ∈ content, c ≠ 34)
    (acc : List JStr) (rest : JStr) :
    parseFieldsAux false [] acc (csvQuote content ++ 44 :: rest) =
      parseFieldsAux false [] (acc ++ [content]) rest := by
  rw [csvQuote, List.cons_append, parseFieldsAux]
  simp only [Bool.false_eq_true, if_false, beq_self_eq_true, if_true,
    List.append_assoc, List.singleton_append]
  rw [parseFieldsAux_quoted content h [] acc (34 :: 44 :: rest)]
  rw [parseFieldsAux]
  simp only [beq_self_eq_true, if_true]
  rw [parseFieldsAux]
  simp

theorem parse_plain_field (content : JStr) (h : ∀ c ∈ content, c ≠ 34 ∧ c ≠ 44)
    (acc : List JStr) (rest : JStr) :
    parseFieldsAux false [] acc (content ++ 44 :: rest) =
      parseFieldsAux false [] (acc ++ [content]) rest := by
  rw [parseFieldsAux_plain content h [] acc (44 :: rest)]
  rw [parseFieldsAux]
  simp

theorem parse_last_quoted (content : JStr) (h : ∀ c ∈ content, c ≠ 34)
    (acc : List JStr) :
    parseFieldsAux false [] acc (csvQuote content) = acc ++ [content] := by
  rw [csvQuote, parseFieldsAux]
  simp only [Bool.false_eq_true, if_false, beq_self_eq_true, if_true]
  rw [parseFieldsAux_quoted content h [] acc [34]]
  rw [parseFieldsAux]
  simp only [beq_self_eq_true, if_true]
  rw [parseFieldsAux]
  simp

/-! ### Character-set facts about serialized fields -/

theorem intCodes_chars (t : Int) : ∀ c ∈ intCodes t, 45 ≤ c ∧ c ≤ 57 := by
  intro c hc
  rw [intCodes] at hc
  by_cases ht : t < 0
  · rw [if_pos ht] at hc
    rcases List.mem_cons.mp hc with rfl | hmem
    · omega
    · have := natCodes_all_digits _ c hmem
      simp only [isDigit, Bool.and_eq_true, decide_eq_true_eq] at this
      omega
  · rw [if_neg ht] at hc
    have := natCodes_all_digits _ c hc
    simp only [isDigit, Bool.and_eq_true, decide_eq_true_eq] at this
    omega

theorem boolCodes_chars (b : Bool) : ∀ c ∈ boolCodes b, 97 ≤ c ∧ c ≤ 117 := by
  cases b <;> decide

theorem mem_csvQuote (c : Nat) (x : JStr) (h : c ∈ csvQuote x) : c = 34 ∨ c ∈ x := by
  rw [csvQuote] at h
  rcases List.mem_cons.mp h with rfl | h2
  · exact Or.inl rfl
  · rcases List.mem_append.mp h2 with h3 | h3
    · exact Or.inr h3
    · simp only [List.mem_singleton] at h3
      exact Or.inl h3

/-- The fully right-nested comma-joined form of a CSV row. -/
theorem exportRow_expand (fmtD fmtT : Int → JStr) (s : Scan) :
    exportRow fmtD fmtT s =
      csvQuote s.tracking ++ 44 :: (intCodes s.timestamp ++ 44 ::
        (csvQuote (fmtD s.timestamp) ++ 44 :: (csvQuote (fmtT s.timestamp) ++ 44 ::
          (boolCodes s.checked ++ 44 :: csvQuote s.deviceName)))) := rfl

theorem mem_exportRow (fmtD fmtT : Int → JStr) (s : Scan) (c : Nat)
    (h : c ∈ exportRow fmtD fmtT s) :
    c = 34 ∨ c = 44 ∨ c ∈ s.tracking ∨ c ∈ intCodes s.timestamp ∨
      c ∈ fmtD s.timestamp ∨ c ∈ fmtT s.timestamp ∨ c ∈ boolCodes s.checked ∨
      c ∈ s.deviceName := by
  rw [exportRow_expand, csvQuote, csvQuote, csvQuote, csvQuote] at h
  simp only [List.mem_append, List.mem_cons, List.mem_singleton,
    List.not_mem_nil, or_false] at h
  tauto

theorem exportRow_ne_nil (fmtD fmtT : Int → JStr) (s : Scan) :
    exportRow fmtD fmtT s ≠ [] := by
  rw [exportRow_expand, csvQuote, List.cons_append]
  simp

/-! ### Normalized trackings are trim-fixed -/

theorem normalizeFix_not_spaceDash (s : JStr) (h : normalizeTracking s = s) :
    ∀ c ∈ s, isSpaceOrDash c = false := by
  intro c hc
  by_contra hcc
  have hcc' : isSpaceOrDash c = true := by simpa using hcc
  have hlen : (normalizeTracking s).length = s.length := by rw [h]
  rw [normalizeTracking, List.length_map] at hlen
  have hlt : (s.filter (fun c => !isSpaceOrDash c)).length < s.length := by
    apply List.length_filter_lt_length_iff_exists.mpr
    exact ⟨c, hc, by simp [hcc']⟩
  omega

theorem not_spaceDash_not_ws (c : Nat) (h : isSpaceOrDash c = false) :
    jsWhitespace c = false := by
  rw [isSpaceOrDash, Bool.or_eq_false_iff] at h
  exact h.1

theorem jsTrim_eq_self (s : JStr) (h : ∀ c ∈ s, jsWhitespace c = false) :
    jsTrim s = s := by
  rw [jsTrim, dropWhile_eq_self_of_all _ s h]
  rw [dropWhile_eq_self_of_all _ s.reverse (fun c hc => h c (List.mem_reverse.mp hc))]
  exact List.reverse_reverse s

theorem checkedCoerce_boolCodes (b : Bool) :
    (lowerStr (boolCodes b) == codes "true") = b := by
  cases b <;> decide

theorem filter_nonempty_eq_self (ls : List JStr) (h : ∀ l ∈ ls, l ≠ []) :
    ls.filter (fun l => !(l.isEmpty)) = ls := by
  induction ls with
  | nil => rfl
  | cons l ls2 ih =>
      have hl : (!(l.isEmpty)) = true := by
        cases hc : l with
        | nil => exact absurd hc (h l (List.mem_cons_self l ls2))
        | cons a as => rfl
      rw [List.filter_cons, hl]
      simp only [if_true]
      rw [ih (fun x hx => h x (List.mem_cons_of_mem l hx))]

/-- The parsed header row of the exporter's CSV. -/
theorem parseFields_csvHeader :
    parseFields csvHeader =
      [codes "tracking", codes "timestamp", codes "date", codes "time",
       codes "checked", codes "deviceName"] := by
  decide

theorem rowToData_header (a b c d e f : JStr) :
    rowToData [codes "tracking", codes "timestamp", codes "date", codes "time",
      codes "checked", codes "deviceName"] [a, b, c, d, e, f] =
      ⟨some (.vstr a), some (.vstr b), some (.vstr c), some (.vstr d),
       some (.vstr e), some (.vstr f)⟩ := by
  rfl

/-! ### Parsing an exported row -/

theorem parseFields_exportRow (fmtD fmtT : Int → JStr) (s : Scan)
    (htr : ∀ c ∈ s.tracking, c ≠ 34)
    (hdn : ∀ c ∈ s.deviceName, c ≠ 34)
    (hfd : ∀ c ∈ fmtD s.timestamp, c ≠ 34)
    (hft : ∀ c ∈ fmtT s.timestamp, c ≠ 34) :
    parseFields (exportRow fmtD fmtT s) =
      [s.tracking, intCodes s.timestamp, fmtD s.timestamp, fmtT s.timestamp,
       boolCodes s.checked, s.deviceName] := by
  have hint : ∀ c ∈ intCodes s.timestamp, c ≠ 34 ∧ c ≠ 44 := by
    intro c hc
    have := intCodes_chars s.timestamp c hc
    omega
  have hbool : ∀ c ∈ boolCodes s.checked, c ≠ 34 ∧ c ≠ 44 := by
    intro c hc
    have := boolCodes_chars s.checked c hc
    omega
  rw [parseFields, exportRow_expand]
  rw [parse_quoted_field _ htr]
  rw [parse_plain_field _ hint]
  rw [parse_quoted_field _ hfd]
  rw [parse_quoted_field _ hft]
  rw [parse_plain_field _ hbool]
  rw [parse_last_quoted _ hdn]
  rfl

/-- Field-level reductions of the row coercions on an explicit record. -/
theorem trackErrs_vstr (tso dv tv cv dn : Option JsVal) (u : JStr) (i : Nat)
    (h1 : u ≠ []) (h2 : jsTrim u ≠ []) :
    trackErrs ⟨some (.vstr u), tso, dv, tv, cv, dn⟩ i = [] := by
  show (if u ≠ [] ∧ jsTrim u ≠ [] then ([] : List RowError)
    else [RowError.missingTracking i]) = []
  rw [if_pos ⟨h1, h2⟩]

theorem tsCoerce_vstr_some (pdt : JsVal → JsVal → Option Int) (now : Int)
    (tr dv tv cv dn : Option JsVal) (u : JStr) (i : Nat) (v : Int)
    (h : jsParseInt u = some v) :
    tsCoerce pdt now ⟨tr, some (.vstr u), dv, tv, cv, dn⟩ i = (v, []) := by
  show (match jsParseInt u with
    | none => (now, [RowError.invalidTimestamp i])
    | some v => (v, ([] : List RowError))) = (v, [])
  rw [h]

theorem tsCoerce_vnum (pdt : JsVal → JsVal → Option Int) (now : Int)
    (tr dv tv cv dn : Option JsVal) (n : Int) (i : Nat) :
    tsCoerce pdt now ⟨tr, some (.vnum n), dv, tv, cv, dn⟩ i = (n, []) := rfl

theorem deviceNameCoerce_vstr (tr ts dv tv cv : Option JsVal) (u : JStr)
    (h : u ≠ []) :
    deviceNameCoerce ⟨tr, ts, dv, tv, cv, some (.vstr u)⟩ = jsTrim u := by
  show (if u ≠ [] then jsTrim u else codes "Unknown") = jsTrim u
  rw [if_pos h]

/-- Validating the parsed CSV row of an exported scan recovers the
scan's data exactly, independent of the row number. -/
theorem validate_export_row_csv (pdt : JsVal → JsVal → Option Int) (now : Int)
    (fmtD fmtT : Int → JStr) (s : Scan) (i : Nat)
    (hn : normalizeTracking s.tracking = s.tracking)
    (hne : s.tracking ≠ [])
    (htr : ∀ c ∈ s.tracking, c ≠ 34)
    (hdnt : jsTrim s.deviceName = s.deviceName)
    (hdne : s.deviceName ≠ [])
    (hdn : ∀ c ∈ s.deviceName, c ≠ 34)
    (hfd : ∀ c ∈ fmtD s.timestamp, c ≠ 34)
    (hft : ∀ c ∈ fmtT s.timestamp, c ≠ 34) :
    validateAndNormalizeScan pdt now
      (rowToData (parseFields csvHeader) (parseFields (exportRow fmtD fmtT s))) i =
      ⟨some (toData s), []⟩ := by
  rw [parseFields_csvHeader, parseFields_exportRow fmtD fmtT s htr hdn hfd hft,
    rowToData_header]
  have htrim : jsTrim s.tracking = s.tracking :=
    jsTrim_eq_self _ (fun c hc =>
      not_spaceDash_not_ws c (normalizeFix_not_spaceDash _ hn c hc))
  rw [validateAndNormalizeScan,
    trackErrs_vstr _ _ _ _ _ _ _ hne (by rw [htrim]; exact hne),
    tsCoerce_vstr_some _ _ _ _ _ _ _ _ _ _ (jsParseInt_intCodes s.timestamp)]
  simp only [List.nil_append, List.isEmpty_nil, if_true]
  rw [RowResult.mk.injEq]
  refine ⟨?_, rfl⟩
  rw [Option.some_inj, toData, ScanData.mk.injEq]
  refine ⟨?_, rfl, ?_, ?_⟩
  · show normalizeTracking s.tracking = s.tracking
    exact hn
  · rw [deviceNameCoerce_vstr _ _ _ _ _ _ hdne]
    exact hdnt
  · show (lowerStr (boolCodes s.checked) == codes "true") = s.checked
    exact checkedCoerce_boolCodes s.checked

/-- Validating the structured-export row of a scan recovers the scan's
data exactly. -/
theorem validate_export_row_json (pdt : JsVal → JsVal → Option Int) (now : Int)
    (fmtD fmtT : Int → JStr) (s : Scan) (i : Nat)
    (hn : normalizeTracking s.tracking = s.tracking)
    (hne : s.tracking ≠ [])
    (hdnt : jsTrim s.deviceName = s.deviceName)
    (hdne : s.deviceName ≠ []) :
    validateAndNormalizeScan pdt now (exportToJSONRow fmtD fmtT s) i =
      ⟨some (toData s), []⟩ := by
  have htrim : jsTrim s.tracking = s.tracking :=
    jsTrim_eq_self _ (fun c hc =>
      not_spaceDash_not_ws c (normalizeFix_not_spaceDash _ hn c hc))
  rw [exportToJSONRow, validateAndNormalizeScan,
    trackErrs_vstr _ _ _ _ _ _ _ hne (by rw [htrim]; exact hne),
    tsCoerce_vnum]
  simp only [List.nil_append, List.isEmpty_nil, if_true]
  rw [RowResult.mk.injEq]
  refine ⟨?_, rfl⟩
  rw [Option.some_inj, toData, ScanData.mk.injEq]
  refine ⟨?_, rfl, ?_, ?_⟩
  · show normalizeTracking s.tracking = s.tracking
    exact hn
  · rw [deviceNameCoerce_vstr _ _ _ _ _ _ hdne]
    exact hdnt
  · rfl

/-- When every row validates to its scan's data with no error, the
per-row loop imports everything: no skip, no error, data in order. -/
theorem processRows_valid (pdt : JsVal → JsVal → Option Int) (now : Int)
    (f : Scan → ImportedScanData) :
    ∀ (scans : List Scan) (i : Nat),
      (∀ s ∈ scans, ∀ j, validateAndNormalizeScan pdt now (f s) j =
        ⟨some (toData s), []⟩) →
      processRows pdt now (scans.map f) i = ⟨scans.length, 0, [], scans.map toData⟩ := by
  intro scans
  induction scans with
  | nil => intro i _; rfl
  | cons s ss ih =>
      intro i h
      rw [List.map_cons, processRows]
      rw [h s (List.mem_cons_self s ss) i]
      rw [ih (i + 1) (fun x hx j => h x (List.mem_cons_of_mem s hx) j)]
      rfl

/-- The same-day duplicate relation between an already-stored record
(left) and a later candidate (right): the stored record has the same
tracking and a current-day timestamp. -/
def sameDayDup (dayStart : Int) (a b : ScanData) : Prop :=
  a.tracking = b.tracking ∧ dayStart ≤ a.timestamp ∧
    a.timestamp ≤ dayStart + 86399999

instance (dayStart : Int) (a b : ScanData) : Decidable (sameDayDup dayStart a b) :=
  inferInstanceAs (Decidable (a.tracking = b.tracking ∧ dayStart ≤ a.timestamp ∧
    a.timestamp ≤ dayStart + 86399999))

/-- Importing rows none of which collides (same tracking + stored
timestamp in the current day) with the store or with an earlier row
inserts everything: fields preserved in order, nothing skipped. -/
theorem importScans_fresh (dayStart : Int) :
    ∀ (datas : List ScanData) (db : DB),
      (∀ s ∈ db.scans, ∀ d ∈ datas, ¬ sameDayDup dayStart (toData s) d) →
      datas.Pairwise (sameDayDup dayStart · · → False) →
      (importScans dayStart db datas).1.scans.map toData =
          db.scans.map toData ++ datas
        ∧ (importScans dayStart db datas).2.1 = datas.length
        ∧ (importScans dayStart db datas).2.2 = 0 := by
  intro datas
  induction datas with
  | nil =>
      intro db _ _
      refine ⟨by simp [importScans], rfl, rfl⟩
  | cons d ds ih =>
      intro db hdb hpair
      have hchk : checkDuplicateToday db d.tracking dayStart = none := by
        rw [checkDuplicateToday, find?_eq_none_iff]
        intro a ha
        have hnd := hdb a ha d (List.mem_cons_self d ds)
        cases hp : dupPred d.tracking dayStart a with
        | false => rfl
        | true =>
            exfalso
            apply hnd
            have := (dupPred_iff _ _ _).mp hp
            exact ⟨this.1, this.2.1, this.2.2⟩
      rw [importScans, hchk]
      have hpairhead := (List.pairwise_cons.mp hpair).1
      have hpairtail := (List.pairwise_cons.mp hpair).2
      have hdb2 : ∀ s ∈ (addScan db d).1.scans, ∀ d' ∈ ds,
          ¬ sameDayDup dayStart (toData s) d' := by
        intro a ha d' hd'
        rw [addScan] at ha
        rcases List.mem_append.mp ha with hmem | hmem
        · exact hdb a hmem d' (List.mem_cons_of_mem d hd')
        · simp only [List.mem_singleton] at hmem
          subst hmem
          exact hpairhead d' hd'
      obtain ⟨h1, h2, h3⟩ := ih (addScan db d).1 hdb2 hpairtail
      refine ⟨?_, ?_, ?_⟩
      · show (importScans dayStart (addScan db d).1 ds).1.scans.map toData = _
        rw [h1, addScan]
        simp [toData]
      · show (importScans dayStart (addScan db d).1 ds).2.1 + 1 = ds.length + 1
        rw [h2]
      · show (importScans dayStart (addScan db d).1 ds).2.2 = 0
        exact h3

/-- **C2 counterexample.** A snapshot of two scans with equal tracking
`AAA` and timestamps 1000 and 2000 — both in the calendar day starting
at 0, as forced duplicate insertion produces — exports to CSV and
parses back to both rows (2 parsed, 0 parse-skips), but re-importing
into an empty store skips the second row as a same-day duplicate: 1
imported, 1 skipped, 1 record — not N = 2 records with 0 skipped. -/
theorem export_import_roundtrip_cex :
    (parseCSV (fun _ _ => none) 1000
        (exportToCSV (fun _ => codes "01/01/1970") (fun _ => codes "00:00")
          [⟨1, codes "AAA", 1000, codes "Dev", false⟩,
           ⟨2, codes "AAA", 2000, codes "Dev", false⟩])).scans.length = 2
    ∧ (parseCSV (fun _ _ => none) 1000
        (exportToCSV (fun _ => codes "01/01/1970") (fun _ => codes "00:00")
          [⟨1, codes "AAA", 1000, codes "Dev", false⟩,
           ⟨2, codes "AAA", 2000, codes "Dev", false⟩])).skipped = 0
    ∧ (importScans 0 emptyDB
        (parseCSV (fun _ _ => none) 1000
          (exportToCSV (fun _ => codes "01/01/1970") (fun _ => codes "00:00")
            [⟨1, codes "AAA", 1000, codes "Dev", false⟩,
             ⟨2, codes "AAA", 2000, codes "Dev", false⟩])).scans).2.1 = 1
    ∧ (importScans 0 emptyDB
        (parseCSV (fun _ _ => none) 1000
          (exportToCSV (fun _ => codes "01/01/1970") (fun _ => codes "00:00")
            [⟨1, codes "AAA", 1000, codes "Dev", false⟩,
             ⟨2, codes "AAA", 2000, codes "Dev", false⟩])).scans).2.2 = 1
    ∧ (importScans 0 emptyDB
        (parseCSV (fun _ _ => none) 1000
          (exportToCSV (fun _ => codes "01/01/1970") (fun _ => codes "00:00")
            [⟨1, codes "AAA", 1000, codes "Dev", false⟩,
             ⟨2, codes "AAA", 2000, codes "Dev", false⟩])).scans).1.scans.length
      = 1 := by
  decide

/-- **C2 (amended).** Exporting a snapshot to either flat format and
re-importing the produced file into an empty store yields exactly N
records with 0 skipped and identical `tracking`, `timestamp`, `checked`
and `deviceName` (ignoring id), provided the snapshot's trackings are
normalized (normalization-fixed), nonempty and quote-free, each
deviceName is nonempty, trim-fixed and free of quote/newline
characters, the date/time display strings contain no quote/newline,
and — forced by the counterexample — no two snapshot records form a
same-day duplicate pair (equal tracking with the earlier record's
timestamp inside the current calendar day), since import re-runs the
live duplicate check against already-imported rows. -/
theorem export_import_roundtrip (fmtD fmtT : Int → JStr)
    (pdt : JsVal → JsVal → Option Int) (now dayStart : Int) (scans : List Scan)
    (hgood : ∀ s ∈ scans,
      normalizeTracking s.tracking = s.tracking ∧ s.tracking ≠ [] ∧
      (∀ c ∈ s.tracking, c ≠ 34) ∧
      jsTrim s.deviceName = s.deviceName ∧ s.deviceName ≠ [] ∧
      (∀ c ∈ s.deviceName, c ≠ 34 ∧ c ≠ 10) ∧
      (∀ c ∈ fmtD s.timestamp, c ≠ 34 ∧ c ≠ 10) ∧
      (∀ c ∈ fmtT s.timestamp, c ≠ 34 ∧ c ≠ 10))
    (hpair : (scans.map toData).Pairwise (sameDayDup dayStart · · → False)) :
    parseCSV pdt now (exportToCSV fmtD fmtT scans) =
        ⟨scans.length, 0, [], scans.map toData⟩
    ∧ parseJSONData pdt now (exportToJSONData fmtD fmtT scans) =
        ⟨scans.length, 0, [], scans.map toData⟩
    ∧ (importScans dayStart emptyDB
        (parseCSV pdt now (exportToCSV fmtD fmtT scans)).scans).1.scans.map toData
        = scans.map toData
    ∧ (importScans dayStart emptyDB
        (parseCSV pdt now (exportToCSV fmtD fmtT scans)).scans).2.1 = scans.length
    ∧ (importScans dayStart emptyDB
        (parseCSV pdt now (exportToCSV fmtD fmtT scans)).scans).2.2 = 0 := by
  have htrno10 : ∀ s ∈ scans, ∀ c ∈ s.tracking, c ≠ 10 := by
    intro s hs c hc he
    have hw := not_spaceDash_not_ws c
      (normalizeFix_not_spaceDash _ (hgood s hs).1 c hc)
    subst he
    exact absurd hw (by decide)
  have hlines : ∀ l ∈ csvHeader :: scans.map (exportRow fmtD fmtT),
      ∀ c ∈ l, c ≠ 10 := by
    intro l hl c hc
    rcases List.mem_cons.mp hl with rfl | hmem
    · revert hc
      revert c
      decide
    · rw [List.mem_map] at hmem
      obtain ⟨s, hs, rfl⟩ := hmem
      obtain ⟨_, _, _, _, _, hdn, hfd, hft⟩ := hgood s hs
      rcases mem_exportRow fmtD fmtT s c hc with h | h | h | h | h | h | h | h
      · omega
      · omega
      · exact htrno10 s hs c h
      · have := intCodes_chars s.timestamp c h
        omega
      · exact (hfd c h).2
      · exact (hft c h).2
      · have := boolCodes_chars s.checked c h
        omega
      · exact (hdn c h).2
  have hsplit : splitLinesAux [] (exportToCSV fmtD fmtT scans) =
      csvHeader :: scans.map (exportRow fmtD fmtT) :=
    splitLines_joinSep _ hlines (by simp)
  have hfilter : (csvHeader :: scans.map (exportRow fmtD fmtT)).filter
      (fun l => !(l.isEmpty)) = csvHeader :: scans.map (exportRow fmtD fmtT) := by
    apply filter_nonempty_eq_self
    intro l hl
    rcases List.mem_cons.mp hl with rfl | hmem
    · decide
    · rw [List.mem_map] at hmem
      obtain ⟨s, _, rfl⟩ := hmem
      exact exportRow_ne_nil fmtD fmtT s
  have hcsv : parseCSV pdt now (exportToCSV fmtD fmtT scans) =
      ⟨scans.length, 0, [], scans.map toData⟩ := by
    rw [parseCSV, hsplit, hfilter, parseCSVLines, List.map_map]
    exact processRows_valid pdt now _ scans 2 (fun s hs j => by
      obtain ⟨hn, hne, htr, hdnt, hdne, hdn, hfd, hft⟩ := hgood s hs
      exact validate_export_row_csv pdt now fmtD fmtT s j hn hne htr hdnt hdne
        (fun c hc => (hdn c hc).1) (fun c hc => (hfd c hc).1)
        (fun c hc => (hft c hc).1))
  have hjson : parseJSONData pdt now (exportToJSONData fmtD fmtT scans) =
      ⟨scans.length, 0, [], scans.map toData⟩ := by
    rw [parseJSONData, exportToJSONData]
    exact processRows_valid pdt now _ scans 1 (fun s hs j => by
      obtain ⟨hn, hne, _, hdnt, hdne, _, _, _⟩ := hgood s hs
      exact validate_export_row_json pdt now fmtD fmtT s j hn hne hdnt hdne)
  have himp := importScans_fresh dayStart (scans.map toData) emptyDB
    (by intro a ha; simp [emptyDB] at ha) hpair
  rw [hcsv]
  refine ⟨rfl, hjson, by simpa [emptyDB] using himp.1,
    by simpa using himp.2.1, by simpa using himp.2.2⟩

/-- **C2 amended witness.** A one-scan store (tracking `AAA`, timestamp
5, device `Dev`, checked) round-trips through CSV with nothing skipped
and its fields intact. -/
theorem export_import_roundtrip_witness :
    parseCSV (fun _ _ => none) 5
        (exportToCSV (fun _ => codes "01/01/1970") (fun _ => codes "00:00")
          [⟨1, codes "AAA", 5, codes "Dev", true⟩]) =
      ⟨1, 0, [], [⟨codes "AAA", 5, codes "Dev", true⟩]⟩
    ∧ (importScans 0 emptyDB
        (parseCSV (fun _ _ => none) 5
          (exportToCSV (fun _ => codes "01/01/1970") (fun _ => codes "00:00")
            [⟨1, codes "AAA", 5, codes "Dev", true⟩])).scans).1.scans.map toData
      = [⟨codes "AAA", 5, codes "Dev", true⟩] := by
  have h := export_import_roundtrip (fun _ => codes "01/01/1970")
    (fun _ => codes "00:00") (fun _ _ => none) 5 0
    [⟨1, codes "AAA", 5, codes "Dev", true⟩]
    (by decide) (by decide)
  exact ⟨h.1, h.2.2.1⟩

end PickupScanner
